import Mathlib

/-!
Verification of the coordinate-mapping core, the external-tool wrapper and the
export error handling of the EasyCrop video cropper.

The Python integers are modelled as `ℤ` and Python floats as exact rationals
`ℚ`; Python's `int(...)` truncation toward zero is `pyInt`, and Python's `//`
floor division is `Int.fdiv`.  Code paths that raise (division by zero in the
drag mapping, subprocess failures) are modelled with `Option`/`Except`.
-/

/-- Python `int(q)`: truncation toward zero. -/
def pyInt (q : ℚ) : ℤ := if 0 ≤ q then ⌊q⌋ else ⌈q⌉

/-- Python `max(lo, min(v, hi))`, the clamping pattern used by the drag mapping. -/
def clamp (lo v hi : ℤ) : ℤ := max lo (min v hi)

/-- `CropBox` from `core.py`: a crop region in pixel coordinates. -/
structure CropBox where
  x : ℤ
  y : ℤ
  width : ℤ
  height : ℤ
deriving Repr, DecidableEq

/-- `ASPECT_PRESETS` from `core.py`: named optional ratios (Python floats read
as exact rationals). -/
def ASPECT_PRESETS : List (String × Option ℚ) :=
  [("Freeform", none),
   ("CinemaScope 2.39:1", some (239 / 100)),
   ("YouTube 16:9", some (16 / 9)),
   ("Instagram Reel 9:16", some (9 / 16)),
   ("TikTok 9:16", some (9 / 16)),
   ("Square 1:1", some 1)]

/-- `full_frame_crop` from `core.py`: a crop box covering the full image. -/
def full_frame_crop (image_width image_height : ℤ) : CropBox :=
  ⟨0, 0, image_width, image_height⟩

/-- `centered_crop_for_ratio` from `core.py`: a centered crop box fitting the
requested aspect ratio (parameter `ratio` renamed to `r`). -/
def centered_crop_for_ratio (image_width image_height : ℤ) (r : ℚ) : CropBox :=
  let base_height : ℤ := pyInt ((image_width : ℚ) / r)
  if base_height ≤ image_height then
    let width := image_width
    let height := base_height
    ⟨(image_width - width).fdiv 2, (image_height - height).fdiv 2, width, height⟩
  else
    let height := image_height
    let width : ℤ := pyInt ((image_height : ℚ) * r)
    ⟨(image_width - width).fdiv 2, (image_height - height).fdiv 2, width, height⟩

/-- `_display_rect` from `core.py`: how the image is letterboxed inside the
canvas, returning `(display_width, display_height, offset_x, offset_y)`.
The two branch-local assignments of the Python `if` are expressed as two
`if` expressions over the same condition. -/
def display_rect (image_width image_height canvas_width canvas_height : ℤ) :
    ℤ × ℤ × ℤ × ℤ :=
  let image_aspect : ℚ := (image_width : ℚ) / (image_height : ℚ)
  let canvas_aspect : ℚ := (canvas_width : ℚ) / (canvas_height : ℚ)
  let display_width : ℤ :=
    if canvas_aspect < image_aspect then canvas_width
    else pyInt ((canvas_height : ℚ) * image_aspect)
  let display_height : ℤ :=
    if canvas_aspect < image_aspect then pyInt ((canvas_width : ℚ) / image_aspect)
    else canvas_height
  (display_width, display_height,
   (canvas_width - display_width).fdiv 2, (canvas_height - display_height).fdiv 2)

/-- Body of `crop_box_from_canvas_drag` after `_display_rect` has been computed
and found to have nonzero dimensions (the Python code divides by
`display_width` and `display_height`, so this is the non-raising path). -/
def cropCore (image_width image_height dw dh ox oy x0 y0 x1 y1 : ℤ)
    (aspect : Option ℚ) : CropBox :=
  let cx0 := clamp ox x0 (ox + dw)
  let cy0 := clamp oy y0 (oy + dh)
  let cx1 := clamp ox x1 (ox + dw)
  let cy1 := clamp oy y1 (oy + dh)
  let scale_x : ℚ := (image_width : ℚ) / (dw : ℚ)
  let scale_y : ℚ := (image_height : ℚ) / (dh : ℚ)
  let x := pyInt (((cx0 - ox : ℤ) : ℚ) * scale_x)
  let y := pyInt (((cy0 - oy : ℤ) : ℚ) * scale_y)
  let w0 := pyInt (((cx1 - cx0 : ℤ) : ℚ) * scale_x)
  let h0 := pyInt (((cy1 - cy0 : ℤ) : ℚ) * scale_y)
  let w1 := match aspect with
            | some r => if r = 0 then w0 else pyInt ((h0 : ℚ) * r)
            | none => w0
  let width := max 1 (min w1 (image_width - x))
  let height := max 1 (min h0 (image_height - y))
  ⟨x, y, width, height⟩

/-- `crop_box_from_canvas_drag` from `core.py` (parameter `aspect_ratio`
renamed to `aspect`).  Returns `none` on the inputs where the Python code
raises `ZeroDivisionError` (a zero display dimension). -/
def crop_box_from_canvas_drag
    (image_width image_height canvas_width canvas_height x0 y0 x1 y1 : ℤ)
    (aspect : Option ℚ) : Option CropBox :=
  match display_rect image_width image_height canvas_width canvas_height with
  | (dw, dh, ox, oy) =>
    if dw = 0 ∨ dh = 0 then none
    else some (cropCore image_width image_height dw dh ox oy x0 y0 x1 y1 aspect)

/-- The image→canvas mapping of `VideoCropperApp._draw_canvas` (`app.py`,
lines 241–248): the on-canvas rectangle `(x0, y0, x1, y1)` of a crop box.
`_draw_canvas` recomputes the letterbox rectangle with exactly the
`_display_rect` formulas. -/
def canvas_rect_of_box (image_width image_height canvas_width canvas_height : ℤ)
    (b : CropBox) : ℤ × ℤ × ℤ × ℤ :=
  match display_rect image_width image_height canvas_width canvas_height with
  | (dw, dh, ox, oy) =>
    let scale_x : ℚ := (dw : ℚ) / (image_width : ℚ)
    let scale_y : ℚ := (dh : ℚ) / (image_height : ℚ)
    (ox + pyInt ((b.x : ℚ) * scale_x),
     oy + pyInt ((b.y : ℚ) * scale_y),
     ox + pyInt (((b.x + b.width : ℤ) : ℚ) * scale_x),
     oy + pyInt (((b.y + b.height : ℤ) : ℚ) * scale_y))

/-- Mapping a box to canvas coordinates (`_draw_canvas` formulas) and back
through `crop_box_from_canvas_drag` with no aspect ratio pinned. -/
def round_trip_box (image_width image_height canvas_width canvas_height : ℤ)
    (b : CropBox) : Option CropBox :=
  match canvas_rect_of_box image_width image_height canvas_width canvas_height b with
  | (x0, y0, x1, y1) =>
    crop_box_from_canvas_drag image_width image_height canvas_width canvas_height
      x0 y0 x1 y1 none

/-- One-axis image-space coordinate of `cropCore`: clamp the canvas coordinate
into the displayed area and rescale by `m / d` (image size over display size). -/
def dragX (m d o v : ℤ) : ℤ :=
  pyInt (((clamp o v (o + d) - o : ℤ) : ℚ) * ((m : ℚ) / (d : ℚ)))

/-- One-axis image-space span of `cropCore` between two clamped canvas
coordinates. -/
def dragSpan (m d o va vb : ℤ) : ℤ :=
  pyInt (((clamp o vb (o + d) - clamp o va (o + d) : ℤ) : ℚ) * ((m : ℚ) / (d : ℚ)))

/-- The pre-clamp width of `cropCore`: the raw horizontal span, or, when an
aspect ratio is pinned (truthy, i.e. nonzero), recomputed from the raw
vertical span. -/
def dragW1 (iw ih dw dh ox oy x0 x1 y0 y1 : ℤ) (aspect : Option ℚ) : ℤ :=
  match aspect with
  | some r =>
    if r = 0 then dragSpan iw dw ox x0 x1
    else pyInt ((dragSpan ih dh oy y0 y1 : ℚ) * r)
  | none => dragSpan iw dw ox x0 x1

/-- Characters of a Python integer literal after the first one: digits with
single underscores allowed only between digits. -/
def digitsUnd : List Char → Bool
  | [] => true
  | ['_'] => false
  | '_' :: c :: cs => c.isDigit && digitsUnd (c :: cs)
  | c :: cs => c.isDigit && digitsUnd cs

/-- Numeric value of a digit string (underscores removed beforehand). -/
def digitsToNat (l : List Char) : ℕ :=
  l.foldl (fun n c => 10 * n + (c.toNat - '0'.toNat)) 0

/-- Python `s.strip()` on a string modelled as its list of characters: drop
leading and trailing whitespace. -/
def pyStrip (l : List Char) : List Char :=
  ((l.dropWhile Char.isWhitespace).reverse.dropWhile Char.isWhitespace).reverse

/-- Python `int(s)` on a string (list of characters): strips whitespace,
accepts an optional sign followed by digits (with single underscores between
digits); `none` models the `ValueError` raised otherwise. -/
def pyParseInt (s : List Char) : Option ℤ :=
  let signed : ℤ × List Char :=
    match pyStrip s with
    | '+' :: r => (1, r)
    | '-' :: r => (-1, r)
    | r => (1, r)
  match signed.2 with
  | [] => none
  | c :: cs =>
    if c.isDigit && digitsUnd cs then
      some (signed.1 * (digitsToNat ((c :: cs).filter (fun a => a ≠ '_')) : ℤ))
    else none

/-- Python `s.split("=", 1)[1]`: everything after the first `=` (callers only
use it on strings that contain `=`). -/
def afterFirstEq : List Char → List Char
  | [] => []
  | '=' :: rest => rest
  | _ :: rest => afterFirstEq rest

/-- Substring test on character lists: does `l` contain `"error"`?  (Callers
lowercase `l` first, giving Python `"error" in s.lower()`.) -/
def containsError : List Char → Bool
  | [] => false
  | c :: cs => ['e', 'r', 'r', 'o', 'r'].isPrefixOf (c :: cs) || containsError cs

/-- One invocation of the caller-supplied `progress_callback` of `crop_video`.
The `timestamp` event carries the parsed `out_time_ms` microsecond value that
the Python code renders as `"Processing timestamp: <timecode>"` (the
floating-point string rendering itself is not modelled); `raw` is the
`ValueError` fallback that forwards the cleaned line; `complete` is the
`"ffmpeg processing complete."` message; `errorLine` the `"ffmpeg: <line>"`
message. -/
inductive ProgressEvent where
  | timestamp (us : ℤ)
  | raw (line : List Char)
  | complete
  | errorLine (line : List Char)
deriving Repr, DecidableEq

/-- The body of the stdout loop of `crop_video` (`ffmpeg_utils.py`,
lines 111–128) for a single line (modelled as its characters): which
callback invocations it produces. -/
def processLine (line : List Char) : List ProgressEvent :=
  let cleaned := pyStrip line
  if cleaned = [] then []
  else if ['o', 'u', 't', '_', 't', 'i', 'm', 'e', '_', 'm', 's', '='].isPrefixOf cleaned then
    match pyParseInt (afterFirstEq cleaned) with
    | some us => [ProgressEvent.timestamp us]
    | none => [ProgressEvent.raw cleaned]
  else if ['p', 'r', 'o', 'g', 'r', 'e', 's', 's', '='].isPrefixOf cleaned then
    if afterFirstEq cleaned = ['e', 'n', 'd'] then [ProgressEvent.complete] else []
  else if containsError (cleaned.map Char.toLower) then [ProgressEvent.errorLine cleaned]
  else []

/-- `ensure_ffmpeg_available` from `ffmpeg_utils.py`, with `shutil.which`
lookups modelled as booleans: raises when either binary is missing. -/
def ensure_ffmpeg_available (ffmpeg_found ffprobe_found : Bool) :
    Except String Unit :=
  if !ffmpeg_found then
    Except.error "ffmpeg is required but was not found on PATH. Install ffmpeg and try again."
  else if !ffprobe_found then
    Except.error "ffprobe is required but was not found on PATH. Install ffmpeg and try again."
  else Except.ok ()

/-- `crop_video` from `ffmpeg_utils.py`, with the external process modelled by
its stdout lines and exit code.  Returns the callback invocations made and
whether the call returned normally (`Except.ok`) or raised.  When
`ensure_ffmpeg_available` raises, the loop never runs, so no events are
produced. -/
def crop_video (ffmpeg_found ffprobe_found : Bool)
    (stdout_lines : List (List Char))
    (returncode : ℤ) : List ProgressEvent × Except String Unit :=
  match ensure_ffmpeg_available ffmpeg_found ffprobe_found with
  | Except.error e => ([], Except.error e)
  | Except.ok () =>
    let events := (stdout_lines.map processLine).flatten
    if returncode ≠ 0 then (events, Except.error "Cropping failed. See logs for details.")
    else (events, Except.ok ())

/-- Observable outcome of `VideoCropperApp._run_export`: whether the output
file exists afterwards, the log lines appended, the modal dialogs shown, and
the path scheduled for reload on the UI thread. -/
structure ExportState where
  outputExists : Bool
  log : List String
  errorDialogs : List String
  infoDialogs : List String
  scheduledReload : Option String
deriving Repr, DecidableEq

/-- The `except` branch of `_run_export` (`app.py`, lines 433–437): delete the
output file if it exists, log the exception, show an error dialog. -/
def exportFailure (outputExistsNow : Bool) (e : String) : ExportState :=
  { outputExists := if outputExistsNow then false else outputExistsNow
    log := [e]
    errorDialogs := [e]
    infoDialogs := []
    scheduledReload := none }

/-- `VideoCropperApp._run_export` (`app.py`, lines 425–437).  The crop step is
modelled by whether `crop_video` raised and whether the output file exists
when it finishes; the optional `finalize` callback by its result (final path
or exception) and the output-file state after it runs.  The function always
returns a state: every exception is caught, so the process never terminates. -/
def run_export (output : String) (cropResult : Except String Unit)
    (existsAfterCrop : Bool) (finalize : Option (Except String String × Bool)) :
    ExportState :=
  match cropResult with
  | Except.error e => exportFailure existsAfterCrop e
  | Except.ok () =>
    match finalize with
    | none =>
      { outputExists := existsAfterCrop
        log := ["Export complete!"]
        errorDialogs := []
        infoDialogs := ["Saved cropped video to " ++ output]
        scheduledReload := some output }
    | some (Except.error e, existsAfterFin) => exportFailure existsAfterFin e
    | some (Except.ok finalPath, existsAfterFin) =>
      { outputExists := existsAfterFin
        log := ["Export complete!"]
        errorDialogs := []
        infoDialogs := ["Saved cropped video to " ++ finalPath]
        scheduledReload := some finalPath }

/-! ### Basic facts about `pyInt`, `clamp` and `Int.fdiv` -/

theorem pyInt_of_nonneg {q : ℚ} (h : 0 ≤ q) : pyInt q = ⌊q⌋ := if_pos h

theorem pyInt_nonneg {q : ℚ} (h : 0 ≤ q) : 0 ≤ pyInt q := by
  rw [pyInt_of_nonneg h]
  exact Int.floor_nonneg.mpr h

theorem pyInt_cast_le {q : ℚ} (h : 0 ≤ q) : (pyInt q : ℚ) ≤ q := by
  rw [pyInt_of_nonneg h]
  exact Int.floor_le q

theorem lt_pyInt_add_one {q : ℚ} (h : 0 ≤ q) : q < (pyInt q : ℚ) + 1 := by
  rw [pyInt_of_nonneg h]
  exact_mod_cast Int.lt_floor_add_one q

theorem pyInt_le_of_le {q : ℚ} {n : ℤ} (h0 : 0 ≤ q) (h : q ≤ (n : ℚ)) :
    pyInt q ≤ n := by
  rw [pyInt_of_nonneg h0]
  exact (Int.floor_mono h).trans_eq (Int.floor_intCast n)

theorem le_pyInt_of_le {q : ℚ} {n : ℤ} (h0 : 0 ≤ q) (h : (n : ℚ) ≤ q) :
    n ≤ pyInt q := by
  rw [pyInt_of_nonneg h0]
  exact Int.le_floor.mpr h

theorem le_clamp (lo v hi : ℤ) : lo ≤ clamp lo v hi := le_max_left _ _

theorem clamp_le {lo hi : ℤ} (v : ℤ) (h : lo ≤ hi) : clamp lo v hi ≤ hi :=
  max_le h (min_le_right _ _)

theorem clamp_eq_of_mem {lo v hi : ℤ} (h1 : lo ≤ v) (h2 : v ≤ hi) :
    clamp lo v hi = v := by
  unfold clamp
  rw [min_eq_left h2, max_eq_right h1]

theorem fdiv_two_nonneg {a : ℤ} (h : 0 ≤ a) : 0 ≤ a.fdiv 2 :=
  Int.fdiv_nonneg h (by norm_num)

theorem fdiv_two_le {a : ℤ} (h : 0 ≤ a) : a.fdiv 2 ≤ a := by
  rw [Int.fdiv_eq_ediv _ (by norm_num)]
  exact Int.ediv_le_self 2 h

/-! ### The `cropCore` projections -/

theorem cropCore_eq (iw ih dw dh ox oy x0 y0 x1 y1 : ℤ) (aspect : Option ℚ) :
    cropCore iw ih dw dh ox oy x0 y0 x1 y1 aspect =
      ⟨dragX iw dw ox x0, dragX ih dh oy y0,
       max 1 (min (dragW1 iw ih dw dh ox oy x0 x1 y0 y1 aspect)
                  (iw - dragX iw dw ox x0)),
       max 1 (min (dragSpan ih dh oy y0 y1) (ih - dragX ih dh oy y0))⟩ := by
  cases aspect <;> rfl

theorem dragX_nonneg {m d o v : ℤ} (hm : 1 ≤ m) (hd : 1 ≤ d) :
    0 ≤ dragX m d o v := by
  have hc0 : (0 : ℤ) ≤ clamp o v (o + d) - o := by
    have := le_clamp o v (o + d)
    omega
  apply pyInt_nonneg
  have h1 : (0 : ℚ) ≤ ((clamp o v (o + d) - o : ℤ) : ℚ) := by exact_mod_cast hc0
  have h2 : (0 : ℚ) ≤ (m : ℚ) / (d : ℚ) :=
    div_nonneg (by exact_mod_cast (show (0 : ℤ) ≤ m by omega))
      (by exact_mod_cast (show (0 : ℤ) ≤ d by omega))
  exact mul_nonneg h1 h2

theorem dragX_le {m d o v : ℤ} (hm : 1 ≤ m) (hd : 1 ≤ d) : dragX m d o v ≤ m := by
  have hc0 : (0 : ℤ) ≤ clamp o v (o + d) - o := by
    have := le_clamp o v (o + d)
    omega
  have hcd : clamp o v (o + d) - o ≤ d := by
    have := clamp_le v (show o ≤ o + d by omega)
    omega
  have hd0 : (0 : ℚ) < (d : ℚ) := by exact_mod_cast (show (0 : ℤ) < d by omega)
  have hm0 : (0 : ℚ) ≤ (m : ℚ) := by exact_mod_cast (show (0 : ℤ) ≤ m by omega)
  have h1 : (0 : ℚ) ≤ ((clamp o v (o + d) - o : ℤ) : ℚ) := by exact_mod_cast hc0
  have hq0 : (0 : ℚ) ≤ ((clamp o v (o + d) - o : ℤ) : ℚ) * ((m : ℚ) / (d : ℚ)) :=
    mul_nonneg h1 (div_nonneg hm0 hd0.le)
  apply pyInt_le_of_le hq0
  rw [← mul_div_assoc, div_le_iff₀ hd0]
  have h2 : ((clamp o v (o + d) - o : ℤ) : ℚ) ≤ (d : ℚ) := by exact_mod_cast hcd
  nlinarith

theorem width_clamp_bounds {x m w1 : ℤ} (hx : x ≤ m) :
    1 ≤ max 1 (min w1 (m - x)) ∧
    (x < m → x + max 1 (min w1 (m - x)) ≤ m) ∧
    x + max 1 (min w1 (m - x)) ≤ max m (x + 1) := by
  omega

/-! ### Facts about `display_rect` -/

theorem display_rect_eq_pos {iw ih cw ch : ℤ}
    (h : (cw : ℚ) / (ch : ℚ) < (iw : ℚ) / (ih : ℚ)) :
    display_rect iw ih cw ch =
      (cw, pyInt ((cw : ℚ) / ((iw : ℚ) / (ih : ℚ))),
       (cw - cw).fdiv 2,
       (ch - pyInt ((cw : ℚ) / ((iw : ℚ) / (ih : ℚ)))).fdiv 2) := by
  simp only [display_rect]
  rw [if_pos h, if_pos h]

theorem display_rect_eq_neg {iw ih cw ch : ℤ}
    (h : ¬((cw : ℚ) / (ch : ℚ) < (iw : ℚ) / (ih : ℚ))) :
    display_rect iw ih cw ch =
      (pyInt ((ch : ℚ) * ((iw : ℚ) / (ih : ℚ))), ch,
       (cw - pyInt ((ch : ℚ) * ((iw : ℚ) / (ih : ℚ)))).fdiv 2,
       (ch - ch).fdiv 2) := by
  simp only [display_rect]
  rw [if_neg h, if_neg h]

theorem display_rect_spec {iw ih cw ch dw dh ox oy : ℤ}
    (hiw : 1 ≤ iw) (hih : 1 ≤ ih) (hcw : 1 ≤ cw) (hch : 1 ≤ ch)
    (hdr : display_rect iw ih cw ch = (dw, dh, ox, oy)) :
    0 ≤ dw ∧ dw ≤ cw ∧ 0 ≤ dh ∧ dh ≤ ch ∧
    ox = (cw - dw).fdiv 2 ∧ oy = (ch - dh).fdiv 2 ∧
    ((dw = cw ∧ dh * iw ≤ dw * ih ∧ dw * ih < (dh + 1) * iw) ∨
     (dh = ch ∧ dw * ih ≤ dh * iw ∧ dh * iw < (dw + 1) * ih)) := by
  have hiw0 : (0 : ℚ) < (iw : ℚ) := by exact_mod_cast (show (0 : ℤ) < iw by omega)
  have hih0 : (0 : ℚ) < (ih : ℚ) := by exact_mod_cast (show (0 : ℤ) < ih by omega)
  have hcw0 : (0 : ℚ) < (cw : ℚ) := by exact_mod_cast (show (0 : ℤ) < cw by omega)
  have hch0 : (0 : ℚ) < (ch : ℚ) := by exact_mod_cast (show (0 : ℤ) < ch by omega)
  by_cases hc : (cw : ℚ) / (ch : ℚ) < (iw : ℚ) / (ih : ℚ)
  · rw [display_rect_eq_pos hc] at hdr
    simp only [Prod.mk.injEq] at hdr
    obtain ⟨h1, h2, h3, h4⟩ := hdr
    subst h1 h2 h3 h4
    have hq : (cw : ℚ) / ((iw : ℚ) / (ih : ℚ)) = (cw : ℚ) * (ih : ℚ) / (iw : ℚ) := by
      rw [div_div_eq_mul_div]
    have hq0 : (0 : ℚ) ≤ (cw : ℚ) / ((iw : ℚ) / (ih : ℚ)) := by positivity
    have hfl : (pyInt ((cw : ℚ) / ((iw : ℚ) / (ih : ℚ))) : ℚ) ≤
        (cw : ℚ) * (ih : ℚ) / (iw : ℚ) := hq ▸ pyInt_cast_le hq0
    have hfu : (cw : ℚ) * (ih : ℚ) / (iw : ℚ) <
        (pyInt ((cw : ℚ) / ((iw : ℚ) / (ih : ℚ))) : ℚ) + 1 := hq ▸ lt_pyInt_add_one hq0
    have hcc : (cw : ℚ) * (ih : ℚ) < (iw : ℚ) * (ch : ℚ) :=
      (div_lt_div_iff₀ hch0 hih0).mp hc
    refine ⟨by omega, le_refl cw, pyInt_nonneg hq0, ?_, rfl, rfl, Or.inl ⟨rfl, ?_, ?_⟩⟩
    · apply pyInt_le_of_le hq0
      rw [hq, div_le_iff₀ hiw0]
      nlinarith
    · exact_mod_cast (le_div_iff₀ hiw0).mp hfl
    · exact_mod_cast (div_lt_iff₀ hiw0).mp hfu
  · rw [display_rect_eq_neg hc] at hdr
    simp only [Prod.mk.injEq] at hdr
    obtain ⟨h1, h2, h3, h4⟩ := hdr
    subst h1 h2 h3 h4
    push_neg at hc
    have hq : (ch : ℚ) * ((iw : ℚ) / (ih : ℚ)) = (ch : ℚ) * (iw : ℚ) / (ih : ℚ) := by
      rw [mul_div_assoc]
    have hq0 : (0 : ℚ) ≤ (ch : ℚ) * ((iw : ℚ) / (ih : ℚ)) := by positivity
    have hfl : (pyInt ((ch : ℚ) * ((iw : ℚ) / (ih : ℚ))) : ℚ) ≤
        (ch : ℚ) * (iw : ℚ) / (ih : ℚ) := hq ▸ pyInt_cast_le hq0
    have hfu : (ch : ℚ) * (iw : ℚ) / (ih : ℚ) <
        (pyInt ((ch : ℚ) * ((iw : ℚ) / (ih : ℚ))) : ℚ) + 1 := hq ▸ lt_pyInt_add_one hq0
    have hcc : (iw : ℚ) * (ch : ℚ) ≤ (cw : ℚ) * (ih : ℚ) :=
      (div_le_div_iff₀ hih0 hch0).mp hc
    refine ⟨pyInt_nonneg hq0, ?_, by omega, le_refl ch, rfl, rfl, Or.inr ⟨rfl, ?_, ?_⟩⟩
    · apply pyInt_le_of_le hq0
      rw [hq, div_le_iff₀ hih0]
      nlinarith
    · exact_mod_cast (le_div_iff₀ hih0).mp hfl
    · exact_mod_cast (div_lt_iff₀ hih0).mp hfu

/-! ### Properties of the drag mapping -/

theorem crop_box_from_canvas_drag_eq {iw ih cw ch dw dh ox oy : ℤ}
    (x0 y0 x1 y1 : ℤ) (aspect : Option ℚ)
    (hdr : display_rect iw ih cw ch = (dw, dh, ox, oy)) :
    crop_box_from_canvas_drag iw ih cw ch x0 y0 x1 y1 aspect =
      if dw = 0 ∨ dh = 0 then none
      else some (cropCore iw ih dw dh ox oy x0 y0 x1 y1 aspect) := by
  unfold crop_box_from_canvas_drag
  rw [hdr]

theorem cropCore_props {iw ih dw dh ox oy x0 y0 x1 y1 : ℤ} {aspect : Option ℚ}
    (hiw : 1 ≤ iw) (hih : 1 ≤ ih) (hdw : 1 ≤ dw) (hdh : 1 ≤ dh)
    {b : CropBox} (hb : cropCore iw ih dw dh ox oy x0 y0 x1 y1 aspect = b) :
    1 ≤ b.width ∧ 1 ≤ b.height ∧ 0 ≤ b.x ∧ 0 ≤ b.y ∧ b.x ≤ iw ∧ b.y ≤ ih ∧
    (b.x < iw → b.x + b.width ≤ iw) ∧ (b.y < ih → b.y + b.height ≤ ih) ∧
    b.x + b.width ≤ max iw (b.x + 1) ∧ b.y + b.height ≤ max ih (b.y + 1) := by
  subst hb
  rw [cropCore_eq]
  have hx0 := @dragX_nonneg iw dw ox x0 hiw hdw
  have hx1 := @dragX_le iw dw ox x0 hiw hdw
  have hy0 := @dragX_nonneg ih dh oy y0 hih hdh
  have hy1 := @dragX_le ih dh oy y0 hih hdh
  obtain ⟨hw1, hw2, hw3⟩ :=
    @width_clamp_bounds (dragX iw dw ox x0) iw
      (dragW1 iw ih dw dh ox oy x0 x1 y0 y1 aspect) hx1
  obtain ⟨hh1, hh2, hh3⟩ :=
    @width_clamp_bounds (dragX ih dh oy y0) ih (dragSpan ih dh oy y0 y1) hy1
  exact ⟨hw1, hh1, hx0, hy0, hx1, hy1, hw2, hh2, hw3, hh3⟩

theorem drag_box_props {iw ih cw ch x0 y0 x1 y1 : ℤ} {aspect : Option ℚ} {b : CropBox}
    (hiw : 1 ≤ iw) (hih : 1 ≤ ih) (hcw : 1 ≤ cw) (hch : 1 ≤ ch)
    (hb : crop_box_from_canvas_drag iw ih cw ch x0 y0 x1 y1 aspect = some b) :
    1 ≤ b.width ∧ 1 ≤ b.height ∧ 0 ≤ b.x ∧ 0 ≤ b.y ∧ b.x ≤ iw ∧ b.y ≤ ih ∧
    (b.x < iw → b.x + b.width ≤ iw) ∧ (b.y < ih → b.y + b.height ≤ ih) ∧
    b.x + b.width ≤ max iw (b.x + 1) ∧ b.y + b.height ≤ max ih (b.y + 1) := by
  rcases hdr : display_rect iw ih cw ch with ⟨dw, dh, ox, oy⟩
  rw [crop_box_from_canvas_drag_eq x0 y0 x1 y1 aspect hdr] at hb
  by_cases hz : dw = 0 ∨ dh = 0
  · rw [if_pos hz] at hb
    exact absurd hb (by simp)
  · rw [if_neg hz] at hb
    push_neg at hz
    obtain ⟨hdw0, _, hdh0, _, _, _, _⟩ := display_rect_spec hiw hih hcw hch hdr
    exact cropCore_props hiw hih (by omega) (by omega) (Option.some.inj hb)

/-! ### Claim C1 -/

/-- C1 (amended): for image and canvas dimensions at least 1 and an ordered
drag rectangle, whenever `crop_box_from_canvas_drag` returns a box it has
`width ≥ 1`, `height ≥ 1`, `0 ≤ x ≤ image_width`, `0 ≤ y ≤ image_height`; the
box lies fully inside the image whenever `x < image_width` and
`y < image_height`, and in the degenerate edge cases it exceeds the image by
at most the floored-at-1 dimension (`x + width ≤ max image_width (x + 1)`,
`y + height ≤ max image_height (y + 1)`). -/
theorem drag_box_bounds (iw ih cw ch x0 y0 x1 y1 : ℤ) (aspect : Option ℚ)
    (b : CropBox) (hiw : 1 ≤ iw) (hih : 1 ≤ ih) (hcw : 1 ≤ cw) (hch : 1 ≤ ch)
    (_hx01 : x0 ≤ x1) (_hy01 : y0 ≤ y1)
    (hb : crop_box_from_canvas_drag iw ih cw ch x0 y0 x1 y1 aspect = some b) :
    1 ≤ b.width ∧ 1 ≤ b.height ∧ 0 ≤ b.x ∧ 0 ≤ b.y ∧ b.x ≤ iw ∧ b.y ≤ ih ∧
    (b.x < iw → b.x + b.width ≤ iw) ∧ (b.y < ih → b.y + b.height ≤ ih) ∧
    b.x + b.width ≤ max iw (b.x + 1) ∧ b.y + b.height ≤ max ih (b.y + 1) :=
  drag_box_props hiw hih hcw hch hb

/-- C1 counterexample: a degenerate drag pinned to the right edge of the
display (image 100×100 shown 1:1 on a 100×100 canvas, drag from (100,50) to
(100,50)) yields the box (100, 50, 1, 1), whose right edge (x + width = 101)
lies outside the 100-pixel-wide image. -/
theorem drag_box_escapes_image :
    crop_box_from_canvas_drag 100 100 100 100 100 50 100 50 none =
      some ⟨100, 50, 1, 1⟩ ∧
    ¬((100 : ℤ) + 1 ≤ 100) := by
  constructor
  · norm_num [crop_box_from_canvas_drag, display_rect, cropCore, clamp, pyInt]
  · norm_num

/-- C1 witness: a 30×40 drag on a 100×100 image shown 1:1. -/
theorem drag_box_bounds_witness :
    crop_box_from_canvas_drag 100 100 100 100 10 20 40 60 none =
      some ⟨10, 20, 30, 40⟩ ∧
    (1 ≤ (CropBox.mk 10 20 30 40).width ∧ 1 ≤ (CropBox.mk 10 20 30 40).height ∧
     0 ≤ (CropBox.mk 10 20 30 40).x ∧ 0 ≤ (CropBox.mk 10 20 30 40).y ∧
     (CropBox.mk 10 20 30 40).x ≤ 100 ∧ (CropBox.mk 10 20 30 40).y ≤ 100 ∧
     ((CropBox.mk 10 20 30 40).x < 100 →
       (CropBox.mk 10 20 30 40).x + (CropBox.mk 10 20 30 40).width ≤ 100) ∧
     ((CropBox.mk 10 20 30 40).y < 100 →
       (CropBox.mk 10 20 30 40).y + (CropBox.mk 10 20 30 40).height ≤ 100) ∧
     (CropBox.mk 10 20 30 40).x + (CropBox.mk 10 20 30 40).width ≤
       max 100 ((CropBox.mk 10 20 30 40).x + 1) ∧
     (CropBox.mk 10 20 30 40).y + (CropBox.mk 10 20 30 40).height ≤
       max 100 ((CropBox.mk 10 20 30 40).y + 1)) :=
  have hc : crop_box_from_canvas_drag 100 100 100 100 10 20 40 60 none =
      some ⟨10, 20, 30, 40⟩ := by
    norm_num [crop_box_from_canvas_drag, display_rect, cropCore, clamp, pyInt]
  ⟨hc, drag_box_bounds 100 100 100 100 10 20 40 60 none ⟨10, 20, 30, 40⟩
    (by norm_num) (by norm_num) (by norm_num) (by norm_num) (by norm_num)
    (by norm_num) hc⟩

/-! ### Claim C9 -/

/-- C9 (amended): `crop_box_from_canvas_drag` evaluates to a box — i.e. the
Python code reaches the end without a `ZeroDivisionError` — exactly when both
display dimensions computed by `_display_rect` are nonzero. -/
theorem drag_defined_iff_display_nonzero
    (iw ih cw ch x0 y0 x1 y1 : ℤ) (aspect : Option ℚ) (dw dh ox oy : ℤ)
    (hdr : display_rect iw ih cw ch = (dw, dh, ox, oy)) :
    (∃ b, crop_box_from_canvas_drag iw ih cw ch x0 y0 x1 y1 aspect = some b) ↔
      (dw ≠ 0 ∧ dh ≠ 0) := by
  rw [crop_box_from_canvas_drag_eq x0 y0 x1 y1 aspect hdr]
  by_cases hz : dw = 0 ∨ dh = 0
  · rw [if_pos hz]
    constructor
    · rintro ⟨b, hb⟩
      exact absurd hb (by simp)
    · rintro ⟨h1, h2⟩
      exact absurd hz (by tauto)
  · rw [if_neg hz]
    push_neg at hz
    simp [hz]

/-- C9 counterexample: a 1×2 image on a 2×1 canvas letterboxes to a
zero-width display (`int(1 * (1/2)) = 0`), so the drag mapping divides by
zero and no box is produced. -/
theorem drag_division_by_zero :
    crop_box_from_canvas_drag 1 2 2 1 0 0 1 1 none = none ∧
    display_rect 1 2 2 1 = (0, 1, 1, 0) := by
  constructor
  · norm_num [crop_box_from_canvas_drag, display_rect, cropCore, clamp, pyInt]
  · norm_num [display_rect, pyInt]

/-- C9 witness: a square image on a square canvas has a full-size display
rectangle, so the drag mapping produces a box. -/
theorem drag_defined_witness :
    display_rect 100 100 100 100 = (100, 100, 0, 0) ∧
    (∃ b, crop_box_from_canvas_drag 100 100 100 100 10 20 40 60 none = some b) :=
  have hdr : display_rect 100 100 100 100 = (100, 100, 0, 0) := by
    norm_num [display_rect, pyInt]
  ⟨hdr, (drag_defined_iff_display_nonzero 100 100 100 100 10 20 40 60 none
    100 100 0 0 hdr).mpr (by norm_num)⟩

/-! ### Claim C10 -/

/-- C10: pinning an aspect ratio changes only the width: with any pinned
ratio, `crop_box_from_canvas_drag` produces the same `x`, `y` and `height` as
the same call with `aspect_ratio = None` (and both raise on the same inputs).
Proved for every ratio, in particular every positive one. -/
theorem aspect_pin_changes_only_width
    (iw ih cw ch x0 y0 x1 y1 : ℤ) (r : ℚ) :
    Option.map (fun b => (b.x, b.y, b.height))
      (crop_box_from_canvas_drag iw ih cw ch x0 y0 x1 y1 (some r)) =
    Option.map (fun b => (b.x, b.y, b.height))
      (crop_box_from_canvas_drag iw ih cw ch x0 y0 x1 y1 none) := by
  rcases hdr : display_rect iw ih cw ch with ⟨dw, dh, ox, oy⟩
  rw [crop_box_from_canvas_drag_eq x0 y0 x1 y1 (some r) hdr,
    crop_box_from_canvas_drag_eq x0 y0 x1 y1 none hdr]
  by_cases hz : dw = 0 ∨ dh = 0
  · rw [if_pos hz, if_pos hz]
  · rw [if_neg hz, if_neg hz]
    rfl

/-! ### Properties of `centered_crop_for_ratio` -/

theorem centered_crop_spec_aux {iw ih : ℤ} {r : ℚ} {b : CropBox}
    (hiw : 1 ≤ iw) (hih : 1 ≤ ih) (hr : 0 < r)
    (hb : centered_crop_for_ratio iw ih r = b) :
    b.x = (iw - b.width).fdiv 2 ∧ b.y = (ih - b.height).fdiv 2 ∧
    (b.width = pyInt ((b.height : ℚ) * r) ∨ b.height = pyInt ((b.width : ℚ) / r)) ∧
    0 ≤ b.width ∧ b.width ≤ iw ∧ 0 ≤ b.height ∧ b.height ≤ ih ∧
    0 ≤ b.x ∧ b.x + b.width ≤ iw ∧ 0 ≤ b.y ∧ b.y + b.height ≤ ih := by
  have hiw0 : (0 : ℚ) < (iw : ℚ) := by exact_mod_cast (show (0 : ℤ) < iw by omega)
  have hih0 : (0 : ℚ) < (ih : ℚ) := by exact_mod_cast (show (0 : ℤ) < ih by omega)
  have hq0 : (0 : ℚ) ≤ (iw : ℚ) / r := by positivity
  simp only [centered_crop_for_ratio] at hb
  by_cases hle : pyInt ((iw : ℚ) / r) ≤ ih
  · rw [if_pos hle] at hb
    subst hb
    dsimp only
    have hh0 : 0 ≤ pyInt ((iw : ℚ) / r) := pyInt_nonneg hq0
    have hx0 : (0 : ℤ) ≤ iw - iw := by omega
    have hy0 : (0 : ℤ) ≤ ih - pyInt ((iw : ℚ) / r) := by omega
    refine ⟨rfl, rfl, Or.inr rfl, by omega, le_refl iw, hh0, hle,
      fdiv_two_nonneg hx0, ?_, fdiv_two_nonneg hy0, ?_⟩
    · have := fdiv_two_le hx0
      omega
    · have := fdiv_two_le hy0
      omega
  · rw [if_neg hle] at hb
    subst hb
    dsimp only
    push_neg at hle
    have hw0q : (0 : ℚ) ≤ (ih : ℚ) * r := by positivity
    have hw0 : 0 ≤ pyInt ((ih : ℚ) * r) := pyInt_nonneg hw0q
    have h1 : ((ih + 1 : ℤ) : ℚ) ≤ (iw : ℚ) / r := by
      rw [pyInt_of_nonneg hq0] at hle
      exact Int.le_floor.mp (by omega)
    have h2 : ((ih + 1 : ℤ) : ℚ) * r ≤ (iw : ℚ) := (le_div_iff₀ hr).mp h1
    have h3 : (ih : ℚ) * r < (iw : ℚ) := by
      push_cast at h2
      nlinarith
    have hwle : pyInt ((ih : ℚ) * r) ≤ iw := pyInt_le_of_le hw0q h3.le
    have hx0 : (0 : ℤ) ≤ iw - pyInt ((ih : ℚ) * r) := by omega
    have hy0 : (0 : ℤ) ≤ ih - ih := by omega
    refine ⟨rfl, rfl, Or.inl rfl, hw0, hwle, by omega, le_refl ih,
      fdiv_two_nonneg hx0, ?_, fdiv_two_nonneg hy0, ?_⟩
    · have := fdiv_two_le hx0
      omega
    · have := fdiv_two_le hy0
      omega

theorem centered_crop_edge {iw ih : ℤ} {r : ℚ} {b : CropBox}
    (hb : centered_crop_for_ratio iw ih r = b) :
    b.width = iw ∨ b.height = ih := by
  simp only [centered_crop_for_ratio] at hb
  by_cases hle : pyInt ((iw : ℚ) / r) ≤ ih
  · rw [if_pos hle] at hb
    subst hb
    exact Or.inl rfl
  · rw [if_neg hle] at hb
    subst hb
    exact Or.inr rfl

theorem centered_crop_dims_pos {iw ih : ℤ} {r : ℚ} {b : CropBox}
    (hiw : 1 ≤ iw) (hih : 1 ≤ ih) (hr : 0 < r) (hr1 : r ≤ (iw : ℚ))
    (hr2 : 1 ≤ (ih : ℚ) * r) (hb : centered_crop_for_ratio iw ih r = b) :
    1 ≤ b.width ∧ 1 ≤ b.height := by
  have hq0 : (0 : ℚ) ≤ (iw : ℚ) / r := by
    have hiw0 : (0 : ℚ) < (iw : ℚ) := by exact_mod_cast (show (0 : ℤ) < iw by omega)
    positivity
  simp only [centered_crop_for_ratio] at hb
  by_cases hle : pyInt ((iw : ℚ) / r) ≤ ih
  · rw [if_pos hle] at hb
    subst hb
    refine ⟨hiw, ?_⟩
    apply le_pyInt_of_le hq0
    rw [show ((1 : ℤ) : ℚ) = 1 by norm_num, le_div_iff₀ hr]
    simpa using hr1
  · rw [if_neg hle] at hb
    subst hb
    refine ⟨?_, hih⟩
    apply le_pyInt_of_le (by positivity)
    push_cast
    exact hr2

/-! ### Claim C4 -/

/-- C4 (amended): for every image at least 1×1 and positive ratio, the box of
`centered_crop_for_ratio` is centered (`x = (iw - width) // 2`,
`y = (ih - height) // 2`), respects the ratio within integer rounding
(`width = int(height * ratio)` or `height = int(width / ratio)`), fits inside
the image, and no ratio-respecting rectangle that fits in the image exceeds it
in one dimension while also weakly exceeding it in the other with at least one
strict excess being impossible only dimension-wise: precisely, no fitting
ratio-respecting rectangle is strictly larger in *both* dimensions.  (The
original claim's stronger maximality — no fitting ratio-respecting rectangle
weakly dominating with one strict excess — is refuted by the counterexample.) -/
theorem centered_crop_spec (iw ih : ℤ) (r : ℚ) (b : CropBox)
    (hiw : 1 ≤ iw) (hih : 1 ≤ ih) (hr : 0 < r)
    (hb : centered_crop_for_ratio iw ih r = b) :
    b.x = (iw - b.width).fdiv 2 ∧ b.y = (ih - b.height).fdiv 2 ∧
    (b.width = pyInt ((b.height : ℚ) * r) ∨ b.height = pyInt ((b.width : ℚ) / r)) ∧
    0 ≤ b.x ∧ 0 ≤ b.y ∧ b.x + b.width ≤ iw ∧ b.y + b.height ≤ ih ∧
    (∀ w h : ℤ, w ≤ iw → h ≤ ih →
      (w = pyInt ((h : ℚ) * r) ∨ h = pyInt ((w : ℚ) / r)) →
      ¬(b.width < w ∧ b.height < h)) := by
  obtain ⟨c1, c2, c3, _, _, _, _, c8, c9, c10, c11⟩ :=
    centered_crop_spec_aux hiw hih hr hb
  refine ⟨c1, c2, c3, c8, c10, c9, c11, ?_⟩
  rintro w h hw hh - ⟨hl1, hl2⟩
  rcases centered_crop_edge hb with he | he
  · omega
  · omega

/-- C4 counterexample: on a 1×2 image with ratio 9/16 the code returns the box
(0, 0, 1, 1), yet the rectangle 1×2 also respects the ratio within integer
rounding (`int(2 * 9/16) = 1`), fits in the image, matches the box's width and
strictly exceeds its height — so the returned box is not the largest
ratio-respecting rectangle that fits. -/
theorem centered_crop_not_maximal :
    centered_crop_for_ratio 1 2 (9 / 16) = ⟨0, 0, 1, 1⟩ ∧
    (1 : ℤ) = pyInt ((2 : ℚ) * (9 / 16)) ∧
    (1 : ℤ) ≤ 1 ∧ (2 : ℤ) ≤ 2 ∧
    (⟨0, 0, 1, 1⟩ : CropBox).width ≤ (1 : ℤ) ∧
    (⟨0, 0, 1, 1⟩ : CropBox).height < (2 : ℤ) := by
  refine ⟨?_, ?_, by norm_num, by norm_num, by norm_num, by norm_num⟩
  · norm_num [centered_crop_for_ratio, pyInt]
    decide
  · norm_num [pyInt]

/-- C4 witness: the 16:9 preset on a 1920×1080 image. -/
theorem centered_crop_spec_witness :
    centered_crop_for_ratio 1920 1080 (16 / 9) = ⟨0, 0, 1920, 1080⟩ ∧
    ((⟨0, 0, 1920, 1080⟩ : CropBox).x =
       (1920 - (⟨0, 0, 1920, 1080⟩ : CropBox).width).fdiv 2 ∧
     (⟨0, 0, 1920, 1080⟩ : CropBox).y =
       (1080 - (⟨0, 0, 1920, 1080⟩ : CropBox).height).fdiv 2 ∧
     ((⟨0, 0, 1920, 1080⟩ : CropBox).width =
        pyInt (((⟨0, 0, 1920, 1080⟩ : CropBox).height : ℚ) * (16 / 9)) ∨
      (⟨0, 0, 1920, 1080⟩ : CropBox).height =
        pyInt (((⟨0, 0, 1920, 1080⟩ : CropBox).width : ℚ) / (16 / 9))) ∧
     0 ≤ (⟨0, 0, 1920, 1080⟩ : CropBox).x ∧ 0 ≤ (⟨0, 0, 1920, 1080⟩ : CropBox).y ∧
     (⟨0, 0, 1920, 1080⟩ : CropBox).x + (⟨0, 0, 1920, 1080⟩ : CropBox).width ≤ 1920 ∧
     (⟨0, 0, 1920, 1080⟩ : CropBox).y + (⟨0, 0, 1920, 1080⟩ : CropBox).height ≤ 1080 ∧
     (∀ w h : ℤ, w ≤ 1920 → h ≤ 1080 →
       (w = pyInt ((h : ℚ) * (16 / 9)) ∨ h = pyInt ((w : ℚ) / (16 / 9))) →
       ¬((⟨0, 0, 1920, 1080⟩ : CropBox).width < w ∧
         (⟨0, 0, 1920, 1080⟩ : CropBox).height < h))) :=
  have hc : centered_crop_for_ratio 1920 1080 (16 / 9) = ⟨0, 0, 1920, 1080⟩ := by
    norm_num [centered_crop_for_ratio, pyInt]
  ⟨hc, centered_crop_spec 1920 1080 (16 / 9) ⟨0, 0, 1920, 1080⟩
    (by norm_num) (by norm_num) (by norm_num) hc⟩

/-! ### Claim C5 -/

/-- C5 (amended): the CropBox validity invariant across the producing
operations.  `full_frame_crop` always satisfies it.  `centered_crop_for_ratio`
always satisfies the positional part (`0 ≤ x`, `0 ≤ y`, `x + width ≤
image_width`, `y + height ≤ image_height`, for every positive ratio), and its
dimensions are additionally at least 1 whenever `ratio ≤ image_width` and
`image_height * ratio ≥ 1` (both hold for all presets on images of a few
pixels or more; the counterexample shows `height = 0` on a 1×1 image with the
2.39 preset).  A box returned by `crop_box_from_canvas_drag` satisfies
`width ≥ 1`, `height ≥ 1`, `x ≥ 0`, `y ≥ 0`, and containment except in the
degenerate edge-drag case, where it may exceed the image by its floored-at-1
dimension. -/
theorem crop_box_invariant :
    (∀ iw ih : ℤ, 1 ≤ iw → 1 ≤ ih →
      0 ≤ (full_frame_crop iw ih).x ∧ 0 ≤ (full_frame_crop iw ih).y ∧
      (full_frame_crop iw ih).x + (full_frame_crop iw ih).width ≤ iw ∧
      (full_frame_crop iw ih).y + (full_frame_crop iw ih).height ≤ ih ∧
      1 ≤ (full_frame_crop iw ih).width ∧ 1 ≤ (full_frame_crop iw ih).height) ∧
    (∀ iw ih : ℤ, ∀ r : ℚ, ∀ b : CropBox, 1 ≤ iw → 1 ≤ ih → 0 < r →
      centered_crop_for_ratio iw ih r = b →
      0 ≤ b.x ∧ 0 ≤ b.y ∧ b.x + b.width ≤ iw ∧ b.y + b.height ≤ ih ∧
      (r ≤ (iw : ℚ) → 1 ≤ (ih : ℚ) * r → 1 ≤ b.width ∧ 1 ≤ b.height)) ∧
    (∀ iw ih cw ch x0 y0 x1 y1 : ℤ, ∀ aspect : Option ℚ, ∀ b : CropBox,
      1 ≤ iw → 1 ≤ ih → 1 ≤ cw → 1 ≤ ch →
      crop_box_from_canvas_drag iw ih cw ch x0 y0 x1 y1 aspect = some b →
      0 ≤ b.x ∧ 0 ≤ b.y ∧ 1 ≤ b.width ∧ 1 ≤ b.height ∧
      b.x + b.width ≤ max iw (b.x + 1) ∧ b.y + b.height ≤ max ih (b.y + 1) ∧
      (b.x < iw → b.x + b.width ≤ iw) ∧ (b.y < ih → b.y + b.height ≤ ih)) := by
  refine ⟨?_, ?_, ?_⟩
  · intro iw ih hiw hih
    simp only [full_frame_crop]
    omega
  · intro iw ih r b hiw hih hr hb
    obtain ⟨_, _, _, _, _, _, _, c8, c9, c10, c11⟩ :=
      centered_crop_spec_aux hiw hih hr hb
    refine ⟨c8, c10, c9, c11, ?_⟩
    intro hr1 hr2
    exact centered_crop_dims_pos hiw hih hr hr1 hr2 hb
  · intro iw ih cw ch x0 y0 x1 y1 aspect b hiw hih hcw hch hb
    obtain ⟨w1, h1, px, py, _, _, ltx, lty, mx, my⟩ :=
      drag_box_props hiw hih hcw hch hb
    exact ⟨px, py, w1, h1, mx, my, ltx, lty⟩

/-- C5 counterexample: the CinemaScope 2.39:1 preset on a 1×1 image yields the
box (0, 0, 1, 0) with height 0, violating the `height ≥ 1` invariant. -/
theorem centered_crop_degenerate :
    ("CinemaScope 2.39:1", some ((239 : ℚ) / 100)) ∈ ASPECT_PRESETS ∧
    centered_crop_for_ratio 1 1 (239 / 100) = ⟨0, 0, 1, 0⟩ ∧
    ¬(1 ≤ (⟨0, 0, 1, 0⟩ : CropBox).height) := by
  refine ⟨by simp [ASPECT_PRESETS], ?_, by norm_num⟩
  norm_num [centered_crop_for_ratio, pyInt]
  decide

/-- C5 witness: the invariant at a 1920×1080 image with the 16:9 preset. -/
theorem crop_box_invariant_witness :
    centered_crop_for_ratio 1920 1080 (16 / 9) = ⟨0, 0, 1920, 1080⟩ ∧
    (0 ≤ (⟨0, 0, 1920, 1080⟩ : CropBox).x ∧
     0 ≤ (⟨0, 0, 1920, 1080⟩ : CropBox).y ∧
     (⟨0, 0, 1920, 1080⟩ : CropBox).x + (⟨0, 0, 1920, 1080⟩ : CropBox).width ≤ 1920 ∧
     (⟨0, 0, 1920, 1080⟩ : CropBox).y + (⟨0, 0, 1920, 1080⟩ : CropBox).height ≤ 1080 ∧
     ((16 / 9 : ℚ) ≤ ((1920 : ℤ) : ℚ) → 1 ≤ ((1080 : ℤ) : ℚ) * (16 / 9) →
       1 ≤ (⟨0, 0, 1920, 1080⟩ : CropBox).width ∧
       1 ≤ (⟨0, 0, 1920, 1080⟩ : CropBox).height)) ∧
    (1 ≤ (⟨0, 0, 1920, 1080⟩ : CropBox).width ∧
     1 ≤ (⟨0, 0, 1920, 1080⟩ : CropBox).height) :=
  have hc : centered_crop_for_ratio 1920 1080 (16 / 9) = ⟨0, 0, 1920, 1080⟩ := by
    norm_num [centered_crop_for_ratio, pyInt]
  have hmain := crop_box_invariant.2.1 1920 1080 (16 / 9) ⟨0, 0, 1920, 1080⟩
    (by norm_num) (by norm_num) (by norm_num) hc
  ⟨hc, hmain, hmain.2.2.2.2 (by norm_num) (by norm_num)⟩

/-! ### Claim C6 -/

/-- C6: the 16:9 preset on a 1920×1080 image yields exactly the full frame:
`centered_crop_for_ratio(1920, 1080, 16/9) = CropBox(0, 0, 1920, 1080)`. -/
theorem centered_crop_1920_1080 :
    ("YouTube 16:9", some ((16 : ℚ) / 9)) ∈ ASPECT_PRESETS ∧
    centered_crop_for_ratio 1920 1080 (16 / 9) = ⟨0, 0, 1920, 1080⟩ ∧
    centered_crop_for_ratio 1920 1080 (16 / 9) = full_frame_crop 1920 1080 := by
  refine ⟨by simp [ASPECT_PRESETS], ?_, ?_⟩
  · norm_num [centered_crop_for_ratio, pyInt]
  · norm_num [centered_crop_for_ratio, full_frame_crop, pyInt]

/-! ### Claim C3 -/

/-- C3: for every image size and canvas size with all four dimensions ≥ 1,
the letterboxed display rectangle fits within the canvas
(`display_width ≤ canvas_width`, `display_height ≤ canvas_height`, nonnegative
offsets, `offset + display ≤ canvas` on both axes) and preserves the image's
aspect ratio within one `int` truncation: either the display is full canvas
width and `display_height` is within one truncation of
`display_width * image_height / image_width`, or symmetrically for the other
branch (stated multiplicatively to avoid division). -/
theorem display_rect_fits_canvas (iw ih cw ch dw dh ox oy : ℤ)
    (hiw : 1 ≤ iw) (hih : 1 ≤ ih) (hcw : 1 ≤ cw) (hch : 1 ≤ ch)
    (hdr : display_rect iw ih cw ch = (dw, dh, ox, oy)) :
    dw ≤ cw ∧ dh ≤ ch ∧ 0 ≤ ox ∧ 0 ≤ oy ∧ ox + dw ≤ cw ∧ oy + dh ≤ ch ∧
    ((dw = cw ∧ dh * iw ≤ dw * ih ∧ dw * ih < (dh + 1) * iw) ∨
     (dh = ch ∧ dw * ih ≤ dh * iw ∧ dh * iw < (dw + 1) * ih)) := by
  obtain ⟨h0w, hwc, h0h, hhc, hox, hoy, hasp⟩ :=
    display_rect_spec hiw hih hcw hch hdr
  have o1 : 0 ≤ ox := by
    rw [hox]
    exact fdiv_two_nonneg (by omega)
  have o2 : ox ≤ cw - dw := by
    rw [hox]
    exact fdiv_two_le (by omega)
  have o3 : 0 ≤ oy := by
    rw [hoy]
    exact fdiv_two_nonneg (by omega)
  have o4 : oy ≤ ch - dh := by
    rw [hoy]
    exact fdiv_two_le (by omega)
  exact ⟨hwc, hhc, o1, o3, by omega, by omega, hasp⟩

/-- C3 witness: the spec's 1920×1080 image on a 900×520 canvas, displayed as
900×506 with offsets (0, 7). -/
theorem display_rect_fits_canvas_witness :
    display_rect 1920 1080 900 520 = (900, 506, 0, 7) ∧
    ((900 : ℤ) ≤ 900 ∧ (506 : ℤ) ≤ 520 ∧ (0 : ℤ) ≤ 0 ∧ (0 : ℤ) ≤ 7 ∧
     (0 : ℤ) + 900 ≤ 900 ∧ (7 : ℤ) + 506 ≤ 520 ∧
     (((900 : ℤ) = 900 ∧ (506 : ℤ) * 1920 ≤ 900 * 1080 ∧
        (900 : ℤ) * 1080 < (506 + 1) * 1920) ∨
      ((506 : ℤ) = 520 ∧ (900 : ℤ) * 1080 ≤ 506 * 1920 ∧
        (506 : ℤ) * 1920 < (900 + 1) * 1080))) :=
  have hdr : display_rect 1920 1080 900 520 = (900, 506, 0, 7) := by
    norm_num [display_rect, pyInt]
    decide
  ⟨hdr, display_rect_fits_canvas 1920 1080 900 520 900 506 0 7
    (by norm_num) (by norm_num) (by norm_num) (by norm_num) hdr⟩

/-! ### Claim C7 -/

/-- C7: modelling the external process by its stdout lines and its exit code,
`crop_video` returns normally exactly when both binaries are on PATH and the
exit code is zero, and in that case the caller-supplied callback has received
exactly the events determined by the stdout lines; it raises exactly when a
binary is missing from PATH or the exit code is nonzero. -/
theorem crop_video_error_iff (ffmpeg_found ffprobe_found : Bool)
    (stdout_lines : List (List Char)) (returncode : ℤ) :
    (((crop_video ffmpeg_found ffprobe_found stdout_lines returncode).2 =
        Except.ok ()) ↔
      (ffmpeg_found = true ∧ ffprobe_found = true ∧ returncode = 0)) ∧
    (ffmpeg_found = true → ffprobe_found = true →
      (crop_video ffmpeg_found ffprobe_found stdout_lines returncode).1 =
        (stdout_lines.map processLine).flatten) := by
  unfold crop_video ensure_ffmpeg_available
  cases ffmpeg_found <;> cases ffprobe_found <;> simp
  by_cases hrc : returncode = 0 <;> simp [hrc]

/-- C7 witness: with both binaries present and exit code 0, a progress line
and the end marker are forwarded and the call returns normally. -/
theorem crop_video_error_iff_witness :
    (crop_video true true ["out_time_ms=500000".toList, "progress=end".toList]
        0).2 = Except.ok () ∧
    (crop_video true true ["out_time_ms=500000".toList, "progress=end".toList]
        0).1 = [ProgressEvent.timestamp 500000, ProgressEvent.complete] :=
  have h := crop_video_error_iff true true
    ["out_time_ms=500000".toList, "progress=end".toList] 0
  ⟨h.1.mpr ⟨rfl, rfl, rfl⟩, by
    rw [h.2 rfl rfl]
    decide⟩

/-! ### Claim C8 -/

/-- C8: if the crop step of an export fails — `crop_video` raises, or the
`finalize` callback raises — then `_run_export` leaves no output file (it
deletes the partial file whenever it exists), logs the failure and surfaces it
in an error dialog; being a total function of the modelled outcomes, it
returns instead of terminating the process. -/
theorem run_export_cleanup (output : String) (cropResult : Except String Unit)
    (existsAfterCrop : Bool) (finalize : Option (Except String String × Bool))
    (e : String)
    (hfail : cropResult = Except.error e ∨
      (cropResult = Except.ok () ∧ ∃ ex, finalize = some (Except.error e, ex))) :
    (run_export output cropResult existsAfterCrop finalize).outputExists = false ∧
    e ∈ (run_export output cropResult existsAfterCrop finalize).log ∧
    e ∈ (run_export output cropResult existsAfterCrop finalize).errorDialogs := by
  rcases hfail with h | ⟨h1, ex, h2⟩
  · subst h
    unfold run_export exportFailure
    cases existsAfterCrop <;> simp
  · subst h1
    subst h2
    unfold run_export exportFailure
    cases ex <;> simp

/-- C8 witness: a failing crop with a partial output file present: the file is
removed and the error is logged and shown. -/
theorem run_export_cleanup_witness :
    ((Except.error "Cropping failed. See logs for details." :
        Except String Unit) = Except.error "Cropping failed. See logs for details." ∨
     ((Except.error "Cropping failed. See logs for details." :
        Except String Unit) = Except.ok () ∧
      ∃ ex, (none : Option (Except String String × Bool)) =
        some (Except.error "Cropping failed. See logs for details.", ex))) ∧
    ((run_export "out.mp4" (Except.error "Cropping failed. See logs for details.")
        true none).outputExists = false ∧
     "Cropping failed. See logs for details." ∈
       (run_export "out.mp4"
         (Except.error "Cropping failed. See logs for details.") true none).log ∧
     "Cropping failed. See logs for details." ∈
       (run_export "out.mp4"
         (Except.error "Cropping failed. See logs for details.") true
         none).errorDialogs) :=
  ⟨Or.inl rfl, run_export_cleanup "out.mp4"
    (Except.error "Cropping failed. See logs for details.") true none
    "Cropping failed. See logs for details." (Or.inl rfl)⟩

/-! ### Round-trip arithmetic on one axis -/

theorem one_le_ceil_ratio {M d : ℤ} (hM : 1 ≤ M) (hd : 1 ≤ d) :
    1 ≤ ⌈(M : ℚ) / (d : ℚ)⌉ := by
  have hM0 : (0 : ℚ) < (M : ℚ) := by exact_mod_cast (show (0 : ℤ) < M by omega)
  have hd0 : (0 : ℚ) < (d : ℚ) := by exact_mod_cast (show (0 : ℤ) < d by omega)
  exact Int.ceil_pos.mpr (by positivity)

theorem ceil_ratio_le_one {M d : ℤ} (hM : 1 ≤ M) (h : M ≤ d) :
    ⌈(M : ℚ) / (d : ℚ)⌉ ≤ 1 := by
  have hd0 : (0 : ℚ) < (d : ℚ) := by exact_mod_cast (show (0 : ℤ) < d by omega)
  apply Int.ceil_le.mpr
  push_cast
  rw [div_le_one hd0]
  exact_mod_cast h

theorem fwd_nonneg {M d v : ℤ} (hM : 1 ≤ M) (hd : 1 ≤ d) (hv : 0 ≤ v) :
    0 ≤ pyInt ((v : ℚ) * ((d : ℚ) / (M : ℚ))) := by
  apply pyInt_nonneg
  have h1 : (0 : ℚ) ≤ (v : ℚ) := by exact_mod_cast hv
  have h2 : (0 : ℚ) ≤ (d : ℚ) / (M : ℚ) :=
    div_nonneg (by exact_mod_cast (show (0 : ℤ) ≤ d by omega))
      (by exact_mod_cast (show (0 : ℤ) ≤ M by omega))
  exact mul_nonneg h1 h2

theorem fwd_le {M d v : ℤ} (hM : 1 ≤ M) (hd : 1 ≤ d) (hv0 : 0 ≤ v)
    (hvM : v ≤ M) : pyInt ((v : ℚ) * ((d : ℚ) / (M : ℚ))) ≤ d := by
  have hM0 : (0 : ℚ) < (M : ℚ) := by exact_mod_cast (show (0 : ℤ) < M by omega)
  have hd0 : (0 : ℚ) ≤ (d : ℚ) := by exact_mod_cast (show (0 : ℤ) ≤ d by omega)
  have hv0q : (0 : ℚ) ≤ (v : ℚ) := by exact_mod_cast hv0
  apply pyInt_le_of_le (mul_nonneg hv0q (div_nonneg hd0 hM0.le))
  rw [← mul_div_assoc, div_le_iff₀ hM0]
  have : (v : ℚ) ≤ (M : ℚ) := by exact_mod_cast hvM
  nlinarith

theorem back_fwd_le {M d v : ℤ} (hM : 1 ≤ M) (hd : 1 ≤ d) (hv0 : 0 ≤ v) :
    pyInt ((pyInt ((v : ℚ) * ((d : ℚ) / (M : ℚ))) : ℚ) * ((M : ℚ) / (d : ℚ))) ≤
      v := by
  have hM0 : (0 : ℚ) < (M : ℚ) := by exact_mod_cast (show (0 : ℤ) < M by omega)
  have hd0 : (0 : ℚ) < (d : ℚ) := by exact_mod_cast (show (0 : ℤ) < d by omega)
  have hv0q : (0 : ℚ) ≤ (v : ℚ) := by exact_mod_cast hv0
  have hs0 : (0 : ℚ) ≤ (d : ℚ) / (M : ℚ) := by positivity
  have ht0 : (0 : ℚ) ≤ (M : ℚ) / (d : ℚ) := by positivity
  have hF0 : 0 ≤ pyInt ((v : ℚ) * ((d : ℚ) / (M : ℚ))) := fwd_nonneg hM hd hv0
  have hF0q : (0 : ℚ) ≤ (pyInt ((v : ℚ) * ((d : ℚ) / (M : ℚ))) : ℚ) := by
    exact_mod_cast hF0
  have hFle : (pyInt ((v : ℚ) * ((d : ℚ) / (M : ℚ))) : ℚ) ≤
      (v : ℚ) * ((d : ℚ) / (M : ℚ)) :=
    pyInt_cast_le (mul_nonneg hv0q hs0)
  have hcanc : (v : ℚ) * ((d : ℚ) / (M : ℚ)) * ((M : ℚ) / (d : ℚ)) = (v : ℚ) := by
    field_simp
  apply pyInt_le_of_le (mul_nonneg hF0q ht0)
  calc (pyInt ((v : ℚ) * ((d : ℚ) / (M : ℚ))) : ℚ) * ((M : ℚ) / (d : ℚ))
      ≤ (v : ℚ) * ((d : ℚ) / (M : ℚ)) * ((M : ℚ) / (d : ℚ)) :=
        mul_le_mul_of_nonneg_right hFle ht0
    _ = (v : ℚ) := hcanc

theorem le_back_fwd {M d v : ℤ} (hM : 1 ≤ M) (hd : 1 ≤ d) (hv0 : 0 ≤ v) :
    v - ⌈(M : ℚ) / (d : ℚ)⌉ ≤
      pyInt ((pyInt ((v : ℚ) * ((d : ℚ) / (M : ℚ))) : ℚ) * ((M : ℚ) / (d : ℚ))) := by
  have hM0 : (0 : ℚ) < (M : ℚ) := by exact_mod_cast (show (0 : ℤ) < M by omega)
  have hd0 : (0 : ℚ) < (d : ℚ) := by exact_mod_cast (show (0 : ℤ) < d by omega)
  have hv0q : (0 : ℚ) ≤ (v : ℚ) := by exact_mod_cast hv0
  have hs0 : (0 : ℚ) ≤ (d : ℚ) / (M : ℚ) := by positivity
  have ht0 : (0 : ℚ) ≤ (M : ℚ) / (d : ℚ) := by positivity
  have hF0 : 0 ≤ pyInt ((v : ℚ) * ((d : ℚ) / (M : ℚ))) := fwd_nonneg hM hd hv0
  have hF0q : (0 : ℚ) ≤ (pyInt ((v : ℚ) * ((d : ℚ) / (M : ℚ))) : ℚ) := by
    exact_mod_cast hF0
  have hFgt : (v : ℚ) * ((d : ℚ) / (M : ℚ)) <
      (pyInt ((v : ℚ) * ((d : ℚ) / (M : ℚ))) : ℚ) + 1 :=
    lt_pyInt_add_one (mul_nonneg hv0q hs0)
  have hcanc : (v : ℚ) * ((d : ℚ) / (M : ℚ)) * ((M : ℚ) / (d : ℚ)) = (v : ℚ) := by
    field_simp
  have hBgt : (v : ℚ) - (M : ℚ) / (d : ℚ) <
      (pyInt ((v : ℚ) * ((d : ℚ) / (M : ℚ))) : ℚ) * ((M : ℚ) / (d : ℚ)) := by
    have := mul_le_mul_of_nonneg_right hFgt.le ht0
    have hexp : ((pyInt ((v : ℚ) * ((d : ℚ) / (M : ℚ))) : ℚ) + 1) * ((M : ℚ) / (d : ℚ)) =
        (pyInt ((v : ℚ) * ((d : ℚ) / (M : ℚ))) : ℚ) * ((M : ℚ) / (d : ℚ)) +
          (M : ℚ) / (d : ℚ) := by ring
    nlinarith [mul_lt_mul_of_pos_right hFgt (by positivity : (0 : ℚ) < (M : ℚ) / (d : ℚ))]
  have hB1 : (v : ℚ) - (M : ℚ) / (d : ℚ) <
      (pyInt ((pyInt ((v : ℚ) * ((d : ℚ) / (M : ℚ))) : ℚ) * ((M : ℚ) / (d : ℚ))) : ℚ) + 1 :=
    lt_of_lt_of_le hBgt (le_of_lt (lt_pyInt_add_one (mul_nonneg hF0q ht0)))
  have hceil : (M : ℚ) / (d : ℚ) ≤ (⌈(M : ℚ) / (d : ℚ)⌉ : ℚ) := Int.le_ceil _
  have : ((v - ⌈(M : ℚ) / (d : ℚ)⌉ : ℤ) : ℚ) <
      (pyInt ((pyInt ((v : ℚ) * ((d : ℚ) / (M : ℚ))) : ℚ) * ((M : ℚ) / (d : ℚ))) : ℚ) + 1 := by
    push_cast
    linarith
  have := (show ((v - ⌈(M : ℚ) / (d : ℚ)⌉ : ℤ) : ℚ) <
      ((pyInt ((pyInt ((v : ℚ) * ((d : ℚ) / (M : ℚ))) : ℚ) * ((M : ℚ) / (d : ℚ))) + 1 : ℤ) : ℚ)
    from by push_cast; push_cast at this; linarith)
  have hz : (v - ⌈(M : ℚ) / (d : ℚ)⌉ : ℤ) <
      pyInt ((pyInt ((v : ℚ) * ((d : ℚ) / (M : ℚ))) : ℚ) * ((M : ℚ) / (d : ℚ))) + 1 := by
    exact_mod_cast this
  omega

theorem back_fwd_span {M d a b : ℤ} (hM : 1 ≤ M) (hd : 1 ≤ d)
    (ha : 0 ≤ a) (hab : a ≤ b) (_hbM : b ≤ M) :
    (b - a) - ⌈(M : ℚ) / (d : ℚ)⌉ ≤
      pyInt (((pyInt ((b : ℚ) * ((d : ℚ) / (M : ℚ))) -
               pyInt ((a : ℚ) * ((d : ℚ) / (M : ℚ))) : ℤ) : ℚ) * ((M : ℚ) / (d : ℚ))) ∧
    pyInt (((pyInt ((b : ℚ) * ((d : ℚ) / (M : ℚ))) -
             pyInt ((a : ℚ) * ((d : ℚ) / (M : ℚ))) : ℤ) : ℚ) * ((M : ℚ) / (d : ℚ))) ≤
      (b - a) + ⌈(M : ℚ) / (d : ℚ)⌉ := by
  have hM0 : (0 : ℚ) < (M : ℚ) := by exact_mod_cast (show (0 : ℤ) < M by omega)
  have hd0 : (0 : ℚ) < (d : ℚ) := by exact_mod_cast (show (0 : ℤ) < d by omega)
  have ha0q : (0 : ℚ) ≤ (a : ℚ) := by exact_mod_cast ha
  have hb0q : (0 : ℚ) ≤ (b : ℚ) := by exact_mod_cast (show (0 : ℤ) ≤ b by omega)
  have habq : (a : ℚ) ≤ (b : ℚ) := by exact_mod_cast hab
  have hs0 : (0 : ℚ) ≤ (d : ℚ) / (M : ℚ) := by positivity
  have ht0 : (0 : ℚ) ≤ (M : ℚ) / (d : ℚ) := by positivity
  have hst : (d : ℚ) / (M : ℚ) * ((M : ℚ) / (d : ℚ)) = 1 := by field_simp
  have hAle : (pyInt ((a : ℚ) * ((d : ℚ) / (M : ℚ))) : ℚ) ≤
      (a : ℚ) * ((d : ℚ) / (M : ℚ)) := pyInt_cast_le (mul_nonneg ha0q hs0)
  have hAgt : (a : ℚ) * ((d : ℚ) / (M : ℚ)) <
      (pyInt ((a : ℚ) * ((d : ℚ) / (M : ℚ))) : ℚ) + 1 :=
    lt_pyInt_add_one (mul_nonneg ha0q hs0)
  have hBle : (pyInt ((b : ℚ) * ((d : ℚ) / (M : ℚ))) : ℚ) ≤
      (b : ℚ) * ((d : ℚ) / (M : ℚ)) := pyInt_cast_le (mul_nonneg hb0q hs0)
  have hBgt : (b : ℚ) * ((d : ℚ) / (M : ℚ)) <
      (pyInt ((b : ℚ) * ((d : ℚ) / (M : ℚ))) : ℚ) + 1 :=
    lt_pyInt_add_one (mul_nonneg hb0q hs0)
  have hD0 : 0 ≤ pyInt ((b : ℚ) * ((d : ℚ) / (M : ℚ))) -
      pyInt ((a : ℚ) * ((d : ℚ) / (M : ℚ))) := by
    rw [pyInt_of_nonneg (mul_nonneg ha0q hs0), pyInt_of_nonneg (mul_nonneg hb0q hs0)]
    have h1 : (a : ℚ) * ((d : ℚ) / (M : ℚ)) ≤ (b : ℚ) * ((d : ℚ) / (M : ℚ)) :=
      mul_le_mul_of_nonneg_right habq hs0
    have := Int.floor_mono h1
    omega
  have hD0q : (0 : ℚ) ≤ ((pyInt ((b : ℚ) * ((d : ℚ) / (M : ℚ))) -
      pyInt ((a : ℚ) * ((d : ℚ) / (M : ℚ))) : ℤ) : ℚ) := by exact_mod_cast hD0
  have hq0 : (0 : ℚ) ≤ ((pyInt ((b : ℚ) * ((d : ℚ) / (M : ℚ))) -
      pyInt ((a : ℚ) * ((d : ℚ) / (M : ℚ))) : ℤ) : ℚ) * ((M : ℚ) / (d : ℚ)) :=
    mul_nonneg hD0q ht0
  have hceil : (M : ℚ) / (d : ℚ) ≤ (⌈(M : ℚ) / (d : ℚ)⌉ : ℚ) := Int.le_ceil _
  have hDub : ((pyInt ((b : ℚ) * ((d : ℚ) / (M : ℚ))) -
      pyInt ((a : ℚ) * ((d : ℚ) / (M : ℚ))) : ℤ) : ℚ) ≤
      ((b : ℚ) - (a : ℚ)) * ((d : ℚ) / (M : ℚ)) + 1 := by
    push_cast
    nlinarith
  have hDlb : ((b : ℚ) - (a : ℚ)) * ((d : ℚ) / (M : ℚ)) - 1 <
      ((pyInt ((b : ℚ) * ((d : ℚ) / (M : ℚ))) -
        pyInt ((a : ℚ) * ((d : ℚ) / (M : ℚ))) : ℤ) : ℚ) := by
    push_cast
    nlinarith
  have hlhs : (((b : ℚ) - (a : ℚ)) * ((d : ℚ) / (M : ℚ)) - 1) * ((M : ℚ) / (d : ℚ)) =
      (b : ℚ) - (a : ℚ) - (M : ℚ) / (d : ℚ) := by
    rw [sub_mul, mul_assoc, hst, mul_one, one_mul]
  have hrhs : (((b : ℚ) - (a : ℚ)) * ((d : ℚ) / (M : ℚ)) + 1) * ((M : ℚ) / (d : ℚ)) =
      (b : ℚ) - (a : ℚ) + (M : ℚ) / (d : ℚ) := by
    rw [add_mul, mul_assoc, hst, mul_one, one_mul]
  constructor
  · have hprod := mul_le_mul_of_nonneg_right hDlb.le ht0
    rw [hlhs] at hprod
    have hgt := lt_pyInt_add_one hq0
    have hq : ((b - a - ⌈(M : ℚ) / (d : ℚ)⌉ : ℤ) : ℚ) <
        (pyInt (((pyInt ((b : ℚ) * ((d : ℚ) / (M : ℚ))) -
          pyInt ((a : ℚ) * ((d : ℚ) / (M : ℚ))) : ℤ) : ℚ) * ((M : ℚ) / (d : ℚ))) : ℚ) + 1 := by
      push_cast
      push_cast at hprod hgt
      linarith
    have hz : b - a - ⌈(M : ℚ) / (d : ℚ)⌉ <
        pyInt (((pyInt ((b : ℚ) * ((d : ℚ) / (M : ℚ))) -
          pyInt ((a : ℚ) * ((d : ℚ) / (M : ℚ))) : ℤ) : ℚ) * ((M : ℚ) / (d : ℚ))) + 1 := by
      exact_mod_cast hq
    omega
  · apply pyInt_le_of_le hq0
    have hprod := mul_le_mul_of_nonneg_right hDub ht0
    rw [hrhs] at hprod
    push_cast
    push_cast at hprod
    linarith

/-! ### Claim C2 -/

/-- C2 (amended): mapping a valid CropBox to canvas coordinates with the
`_draw_canvas` formulas and back through `crop_box_from_canvas_drag` (no
aspect ratio pinned) reproduces the box within `±⌈image/display⌉` pixels per
axis — hence within ±1 pixel whenever the display does not downscale the
image.  (The unconditional ±1 of the original claim fails under downscaling;
see the counterexample.)  The display dimensions are assumed nonzero, since
otherwise the drag mapping raises `ZeroDivisionError`. -/
theorem round_trip_within_scale (iw ih cw ch dw dh ox oy : ℤ) (b : CropBox)
    (hiw : 1 ≤ iw) (hih : 1 ≤ ih) (_hcw : 1 ≤ cw) (_hch : 1 ≤ ch)
    (hdr : display_rect iw ih cw ch = (dw, dh, ox, oy))
    (hdw : 1 ≤ dw) (hdh : 1 ≤ dh)
    (hbx : 0 ≤ b.x) (hby : 0 ≤ b.y) (hbw : 1 ≤ b.width) (hbh : 1 ≤ b.height)
    (hbxw : b.x + b.width ≤ iw) (hbyh : b.y + b.height ≤ ih) :
    ∃ c : CropBox, round_trip_box iw ih cw ch b = some c ∧
      |c.x - b.x| ≤ ⌈(iw : ℚ) / (dw : ℚ)⌉ ∧
      |c.y - b.y| ≤ ⌈(ih : ℚ) / (dh : ℚ)⌉ ∧
      |c.width - b.width| ≤ ⌈(iw : ℚ) / (dw : ℚ)⌉ ∧
      |c.height - b.height| ≤ ⌈(ih : ℚ) / (dh : ℚ)⌉ ∧
      (iw ≤ dw → ih ≤ dh →
        |c.x - b.x| ≤ 1 ∧ |c.y - b.y| ≤ 1 ∧
        |c.width - b.width| ≤ 1 ∧ |c.height - b.height| ≤ 1) := by
  have hbxiw : b.x ≤ iw := by omega
  have hbxw0 : 0 ≤ b.x + b.width := by omega
  have hbyih : b.y ≤ ih := by omega
  have hbyh0 : 0 ≤ b.y + b.height := by omega
  have hFX0 := @fwd_nonneg iw dw b.x hiw hdw hbx
  have hFXd := @fwd_le iw dw b.x hiw hdw hbx hbxiw
  have hFX10 := @fwd_nonneg iw dw (b.x + b.width) hiw hdw hbxw0
  have hFX1d := @fwd_le iw dw (b.x + b.width) hiw hdw hbxw0 hbxw
  have hFY0 := @fwd_nonneg ih dh b.y hih hdh hby
  have hFYd := @fwd_le ih dh b.y hih hdh hby hbyih
  have hFY10 := @fwd_nonneg ih dh (b.y + b.height) hih hdh hbyh0
  have hFY1d := @fwd_le ih dh (b.y + b.height) hih hdh hbyh0 hbyh
  have hcr : canvas_rect_of_box iw ih cw ch b =
      (ox + pyInt ((b.x : ℚ) * ((dw : ℚ) / (iw : ℚ))),
       oy + pyInt ((b.y : ℚ) * ((dh : ℚ) / (ih : ℚ))),
       ox + pyInt (((b.x + b.width : ℤ) : ℚ) * ((dw : ℚ) / (iw : ℚ))),
       oy + pyInt (((b.y + b.height : ℤ) : ℚ) * ((dh : ℚ) / (ih : ℚ)))) := by
    unfold canvas_rect_of_box
    rw [hdr]
  have hrt : round_trip_box iw ih cw ch b = some (cropCore iw ih dw dh ox oy
      (ox + pyInt ((b.x : ℚ) * ((dw : ℚ) / (iw : ℚ))))
      (oy + pyInt ((b.y : ℚ) * ((dh : ℚ) / (ih : ℚ))))
      (ox + pyInt (((b.x + b.width : ℤ) : ℚ) * ((dw : ℚ) / (iw : ℚ))))
      (oy + pyInt (((b.y + b.height : ℤ) : ℚ) * ((dh : ℚ) / (ih : ℚ)))) none) := by
    unfold round_trip_box
    rw [hcr]
    dsimp only
    rw [crop_box_from_canvas_drag_eq _ _ _ _ none hdr]
    rw [if_neg (by omega : ¬(dw = 0 ∨ dh = 0))]
  refine ⟨_, hrt, ?_⟩
  rw [cropCore_eq]
  dsimp only
  simp only [dragW1]
  have hcx : dragX iw dw ox (ox + pyInt ((b.x : ℚ) * ((dw : ℚ) / (iw : ℚ)))) =
      pyInt ((pyInt ((b.x : ℚ) * ((dw : ℚ) / (iw : ℚ))) : ℚ) * ((iw : ℚ) / (dw : ℚ))) := by
    unfold dragX
    rw [clamp_eq_of_mem (by omega) (by omega), add_sub_cancel_left]
  have hcy : dragX ih dh oy (oy + pyInt ((b.y : ℚ) * ((dh : ℚ) / (ih : ℚ)))) =
      pyInt ((pyInt ((b.y : ℚ) * ((dh : ℚ) / (ih : ℚ))) : ℚ) * ((ih : ℚ) / (dh : ℚ))) := by
    unfold dragX
    rw [clamp_eq_of_mem (by omega) (by omega), add_sub_cancel_left]
  have hspanx : dragSpan iw dw ox (ox + pyInt ((b.x : ℚ) * ((dw : ℚ) / (iw : ℚ))))
      (ox + pyInt (((b.x + b.width : ℤ) : ℚ) * ((dw : ℚ) / (iw : ℚ)))) =
      pyInt (((pyInt (((b.x + b.width : ℤ) : ℚ) * ((dw : ℚ) / (iw : ℚ))) -
        pyInt ((b.x : ℚ) * ((dw : ℚ) / (iw : ℚ))) : ℤ) : ℚ) * ((iw : ℚ) / (dw : ℚ))) := by
    unfold dragSpan
    rw [clamp_eq_of_mem (by omega) (by omega), clamp_eq_of_mem (by omega) (by omega),
      add_sub_add_left_eq_sub]
  have hspany : dragSpan ih dh oy (oy + pyInt ((b.y : ℚ) * ((dh : ℚ) / (ih : ℚ))))
      (oy + pyInt (((b.y + b.height : ℤ) : ℚ) * ((dh : ℚ) / (ih : ℚ)))) =
      pyInt (((pyInt (((b.y + b.height : ℤ) : ℚ) * ((dh : ℚ) / (ih : ℚ))) -
        pyInt ((b.y : ℚ) * ((dh : ℚ) / (ih : ℚ))) : ℤ) : ℚ) * ((ih : ℚ) / (dh : ℚ))) := by
    unfold dragSpan
    rw [clamp_eq_of_mem (by omega) (by omega), clamp_eq_of_mem (by omega) (by omega),
      add_sub_add_left_eq_sub]
  rw [hcx, hcy, hspanx, hspany]
  have hXub := @back_fwd_le iw dw b.x hiw hdw hbx
  have hXlb := @le_back_fwd iw dw b.x hiw hdw hbx
  have hYub := @back_fwd_le ih dh b.y hih hdh hby
  have hYlb := @le_back_fwd ih dh b.y hih hdh hby
  obtain ⟨hWlb, hWub⟩ :=
    @back_fwd_span iw dw b.x (b.x + b.width) hiw hdw hbx (by omega) hbxw
  obtain ⟨hHlb, hHub⟩ :=
    @back_fwd_span ih dh b.y (b.y + b.height) hih hdh hby (by omega) hbyh
  have hSx1 : 1 ≤ ⌈(iw : ℚ) / (dw : ℚ)⌉ := one_le_ceil_ratio hiw hdw
  have hSy1 : 1 ≤ ⌈(ih : ℚ) / (dh : ℚ)⌉ := one_le_ceil_ratio hih hdh
  refine ⟨?_, ?_, ?_, ?_, ?_⟩
  · rw [abs_le]
    constructor <;> omega
  · rw [abs_le]
    constructor <;> omega
  · rw [abs_le]
    constructor <;> omega
  · rw [abs_le]
    constructor <;> omega
  · intro hle1 hle2
    have hc1 := ceil_ratio_le_one hiw hle1
    have hc2 := ceil_ratio_le_one hih hle2
    refine ⟨?_, ?_, ?_, ?_⟩ <;> (rw [abs_le]; constructor <;> omega)

/-- C2 counterexample: a 100×100 image letterboxed on a 10×10 canvas (10×
downscale): the box (55, 0, 10, 100) maps to the canvas rectangle and back to
(50, 0, 10, 100) — the x coordinate moves by 5 pixels, more than ±1. -/
theorem round_trip_not_within_one :
    round_trip_box 100 100 10 10 ⟨55, 0, 10, 100⟩ = some ⟨50, 0, 10, 100⟩ ∧
    ¬(|(50 : ℤ) - 55| ≤ 1) := by
  constructor
  · norm_num [round_trip_box, canvas_rect_of_box, crop_box_from_canvas_drag,
      display_rect, cropCore, clamp, pyInt]
  · decide

/-- C2 witness: a 100×100 image shown 1:1 on a 100×100 canvas. -/
theorem round_trip_within_scale_witness :
    display_rect 100 100 100 100 = (100, 100, 0, 0) ∧
    (∃ c : CropBox, round_trip_box 100 100 100 100 ⟨10, 20, 30, 40⟩ = some c ∧
      |c.x - (⟨10, 20, 30, 40⟩ : CropBox).x| ≤ ⌈((100 : ℤ) : ℚ) / ((100 : ℤ) : ℚ)⌉ ∧
      |c.y - (⟨10, 20, 30, 40⟩ : CropBox).y| ≤ ⌈((100 : ℤ) : ℚ) / ((100 : ℤ) : ℚ)⌉ ∧
      |c.width - (⟨10, 20, 30, 40⟩ : CropBox).width| ≤
        ⌈((100 : ℤ) : ℚ) / ((100 : ℤ) : ℚ)⌉ ∧
      |c.height - (⟨10, 20, 30, 40⟩ : CropBox).height| ≤
        ⌈((100 : ℤ) : ℚ) / ((100 : ℤ) : ℚ)⌉ ∧
      ((100 : ℤ) ≤ 100 → (100 : ℤ) ≤ 100 →
        |c.x - (⟨10, 20, 30, 40⟩ : CropBox).x| ≤ 1 ∧
        |c.y - (⟨10, 20, 30, 40⟩ : CropBox).y| ≤ 1 ∧
        |c.width - (⟨10, 20, 30, 40⟩ : CropBox).width| ≤ 1 ∧
        |c.height - (⟨10, 20, 30, 40⟩ : CropBox).height| ≤ 1)) :=
  have hdr : display_rect 100 100 100 100 = (100, 100, 0, 0) := by
    norm_num [display_rect, pyInt]
  ⟨hdr, round_trip_within_scale 100 100 100 100 100 100 0 0 ⟨10, 20, 30, 40⟩
    (by norm_num) (by norm_num) (by norm_num) (by norm_num) hdr
    (by norm_num) (by norm_num) (by norm_num) (by norm_num) (by norm_num)
    (by norm_num) (by norm_num) (by norm_num)⟩
